import Mathlib

/-!
Shallow embedding of the letmein password manager (Go).

Go strings are modelled as lists of Unicode code points (`GoStr`).  All
strings subject to validation are restricted to printable ASCII
(code points 32..126), where code points and UTF-8 bytes coincide; the
byte-length checks use an explicit UTF-8 size function so they are
faithful on arbitrary input as well.  Timestamps (`time.Time`) are
modelled as nanoseconds since Go's zero time (a `Nat`), with `time.Round
time.Millisecond` modelled by `roundMs`; an absent (`nil`) `*time.Time`
is `Option.none`.

The scrypt KDF comes from an external library (github.com/dchest/scrypt),
not from this repository; it is a deterministic pure function of
(password, salt, keyLen) given the fixed cost parameters N=16384, r=8,
p=1, and is modelled as an explicit function parameter `sk : ScryptKey`
threaded through `Generate` and its callers.
-/

namespace Letmein

/-- A Go string, as its list of runes (Unicode code points). -/
abbrev GoStr := List Nat

/-- Go `unicode.IsSpace` on code points (the Unicode White_Space set
plus U+0085). -/
def isSpaceGo (r : Nat) : Bool :=
  r == 9 || r == 10 || r == 11 || r == 12 || r == 13 || r == 32 ||
  r == 133 || r == 160 || r == 5760 || (8192 ≤ r && r ≤ 8202) ||
  r == 8232 || r == 8233 || r == 8239 || r == 8287 || r == 12288

/-- Go `unicode.IsLower`, restricted to the ASCII range: in the code below
this predicate is only ever evaluated on code points in [32,126], where
Go's table gives exactly a..z. -/
def isLowerGo (r : Nat) : Bool := 97 ≤ r && r ≤ 122

/-- Go `unicode.IsUpper` on the ASCII range (A..Z). -/
def isUpperGo (r : Nat) : Bool := 65 ≤ r && r ≤ 90

/-- Go `unicode.IsDigit` on the ASCII range (0..9). -/
def isDigitGo (r : Nat) : Bool := 48 ≤ r && r ≤ 57

/-- Go `unicode.ToLower` restricted to what the validation below can
observe: A..Z map to a..z, and the only two non-ASCII runes whose
Unicode simple lower-case mapping lands inside ASCII are mapped as Go
maps them — U+0130 LATIN CAPITAL LETTER I WITH DOT ABOVE (304) to
i (105) and U+212A KELVIN SIGN (8490) to k (107).  Go also maps various
other non-ASCII runes to other non-ASCII runes; those are modelled as
fixed points, which is sound for every result proved below: such a rune
and its Go image are both outside [32,126], so on it `Validate` fails
either way (at worst under a different error constructor when the UTF-8
byte lengths of the two images differ), and lower-cased strings that
pass the [32,126] checks are rune-for-rune identical to Go's. -/
def toLowerGo (r : Nat) : Nat :=
  if 65 ≤ r && r ≤ 90 then r + 32
  else if r = 304 then 105
  else if r = 8490 then 107
  else r

/-- Go `strings.ToLower`. -/
def mapToLower (s : GoStr) : GoStr := s.map toLowerGo

/-- Go `strings.TrimSpace`: drop leading and trailing white space. -/
def trimSpace (s : GoStr) : GoStr :=
  ((s.dropWhile isSpaceGo).reverse.dropWhile isSpaceGo).reverse

/-- Go `strings.ContainsRune`. -/
def containsRune (s : GoStr) (r : Nat) : Bool := s.contains r

/-- Number of bytes in the UTF-8 encoding of one rune. -/
def utf8Size (r : Nat) : Nat :=
  if r < 128 then 1 else if r < 2048 then 2 else if r < 65536 then 3 else 4

/-- Go `len(s)` on a string: its UTF-8 byte length. -/
def byteLen (s : GoStr) : Nat := (s.map utf8Size).sum

/-- Go `t.Round(time.Millisecond)` on a timestamp in nanoseconds:
round to the nearest multiple of 10^6 ns, halves rounding up. -/
def roundMs (t : Nat) : Nat := (t + 500000) / 1000000 * 1000000

/-- The profile record (src/profile.go).  `Generation` and `Length` are
Go `int`s, modelled as `Int`. -/
structure Profile where
  Scheme : GoStr := []
  UUID : GoStr := []
  Name : GoStr := []
  Username : GoStr := []
  URL : GoStr := []
  Generation : Int := 0
  Length : Int := 0
  Lower : Bool := false
  Upper : Bool := false
  Digits : Bool := false
  Punctuation : Bool := false
  Spaces : Bool := false
  Include : GoStr := []
  Exclude : GoStr := []
  ModifiedAt : Option Nat := none
deriving DecidableEq, Repr

def minChar : Nat := 32
def maxChar : Nat := 126
def minNameLength : Nat := 1
def maxNameLength : Nat := 256
def maxUsernameLength : Nat := 256
def maxURLLength : Nat := 256
def minGeneration : Int := 0
def maxGeneration : Int := 1 <<< 30
def minLength : Int := 1
def maxLength : Int := 32

/-- The rune list of the Go raw string
scrypt(master\turl\tusername,generation,16384,8,1,length)
(the backslash-t pairs are two literal characters, not tabs). -/
def schemeScrypt : GoStr :=
  [115, 99, 114, 121, 112, 116, 40, 109, 97, 115, 116, 101, 114, 92, 116,
   117, 114, 108, 92, 116, 117, 115, 101, 114, 110, 97, 109, 101, 44,
   103, 101, 110, 101, 114, 97, 116, 105, 111, 110, 44, 49, 54, 51, 56,
   52, 44, 56, 44, 49, 44, 108, 101, 110, 103, 116, 104, 41]

/-- `Profile.IsDeleted`: a length below 1 marks a tombstone. -/
def IsDeleted (p : Profile) : Bool := p.Length < 1

/-- `Profile.CanUse` (src/profile.go): can rune `r` appear in a password
under profile `p`? -/
def CanUse (p : Profile) (r : Nat) : Bool :=
  if r < minChar || r > maxChar then
    false
  else
    let use :=
      if isSpaceGo r then p.Spaces
      else if isLowerGo r then p.Lower
      else if isUpperGo r then p.Upper
      else if isDigitGo r then p.Digits
      else p.Punctuation
    let use := if containsRune p.Include r then true else use
    if containsRune p.Exclude r then false else use

/-- The runes 32..126, in ascending order: the loop
`for r := rune(minChar); r <= rune(maxChar); r++`. -/
def charRange : GoStr := (List.range 95).map (· + 32)

/-- `Profile.GetCharacterSet`: every usable rune, scanned in ascending
code-point order. -/
def GetCharacterSet (p : Profile) : GoStr := charRange.filter (CanUse p)

/-- One distinct error per distinct message produced by `Validate` or by
`getClient`. -/
inductive AppErr
  | badScheme
  | nameLen
  | nameChar
  | usernameLen
  | usernameChar
  | urlLen
  | urlChar
  | generationRange
  | lengthRange
  | alphabetTooSmall
  | verifyMismatch
deriving DecidableEq, Repr

deriving instance DecidableEq for Except

/-- Whether a rune is outside the legal range [32,126]. -/
def illegalRune (r : Nat) : Bool := r < minChar || r > maxChar

/-- The final state of the receiver after a successful non-tombstone
`Profile.Validate`: name trimmed, username and url lower-cased and
trimmed, include/exclude renormalized over [32,126] (exclude keeps its
in-range runes; include keeps its in-range runes not present in
exclude), and the modification timestamp rounded to the millisecond. -/
def normalizeOk (p : Profile) : Profile :=
  { p with
    Name := trimSpace p.Name,
    Username := mapToLower (trimSpace p.Username),
    URL := mapToLower (trimSpace p.URL),
    Include := charRange.filter
      (fun r => !containsRune p.Exclude r && containsRune p.Include r),
    Exclude := charRange.filter (fun r => containsRune p.Exclude r),
    ModifiedAt := p.ModifiedAt.map roundMs }

/-- `Profile.Validate` (src/profile.go): normalizes a profile in place and
reports validity.  Modelled as a pure function returning the normalized
profile on success.  (On failure the Go code leaves the receiver
partially mutated, but every caller aborts the invocation on failure, so
the partial mutation is unobservable.)  The Go checks
`len(username) < 0` and `len(url) < 0` against the zero minimum lengths
are vacuous and have no counterpart here. -/
def Validate (p : Profile) : Except AppErr Profile :=
  -- special case: deleted profile — clear everything except UUID
  -- (and ModifiedAt, which this branch does not touch)
  if IsDeleted p then
    .ok { p with Scheme := [], Name := [], Username := [], URL := [],
                 Generation := 0, Length := 0, Lower := false,
                 Upper := false, Digits := false, Punctuation := false,
                 Spaces := false, Include := [], Exclude := [] }
  else if p.Scheme ≠ schemeScrypt then .error .badScheme
  -- name is trimmed, then length- and character-checked
  else if byteLen (trimSpace p.Name) < minNameLength ∨
      byteLen (trimSpace p.Name) > maxNameLength then .error .nameLen
  else if (trimSpace p.Name).any illegalRune then .error .nameChar
  -- username is lower-cased and trimmed, then checked
  else if byteLen (mapToLower (trimSpace p.Username)) > maxUsernameLength then
    .error .usernameLen
  else if (mapToLower (trimSpace p.Username)).any illegalRune then
    .error .usernameChar
  -- url is lower-cased and trimmed, then checked
  else if byteLen (mapToLower (trimSpace p.URL)) > maxURLLength then
    .error .urlLen
  else if (mapToLower (trimSpace p.URL)).any illegalRune then .error .urlChar
  else if p.Generation < minGeneration ∨ p.Generation > maxGeneration then
    .error .generationRange
  else if p.Length < minLength ∨ p.Length > maxLength then .error .lengthRange
  -- includes/excludes are renormalized and usable runes counted against
  -- the profile's pre-assignment Include/Exclude
  else if (charRange.filter (fun r => CanUse p r)).length < 2 then
    .error .alphabetTooSmall
  else
    .ok (normalizeOk p)

/-- The external scrypt KDF: (password bytes, salt bytes, keyLen) ↦
keyLen derived bytes, at the fixed cost parameters N=16384, r=8, p=1. -/
abbrev ScryptKey := GoStr → GoStr → Nat → List Nat

/-- Decimal digit runes of a natural number, with explicit fuel (any
fuel of at least one per decimal digit gives the digits of `n`;
`natDigits` supplies `n + 1`, which always suffices since `n / 10 < n`
for `n ≥ 10`). -/
def natDigitsAux : Nat → Nat → GoStr
  | 0, _ => []
  | fuel + 1, n =>
    if n < 10 then [48 + n]
    else natDigitsAux fuel (n / 10) ++ [48 + n % 10]

/-- Decimal digit runes of a natural number (Go `strconv.Itoa` on
non-negative values). -/
def natDigits (n : Nat) : GoStr := natDigitsAux (n + 1) n

/-- Go `strconv.Itoa` on an `int`. -/
def itoa (n : Int) : GoStr :=
  if n < 0 then 45 :: natDigits n.natAbs else natDigits n.toNat

/-- Big-endian value of a byte string (Go `big.Int.SetBytes`). -/
def beBytes (bs : List Nat) : Nat := bs.foldl (fun a b => a * 256 + b) 0

/-- The mapping loop of `Profile.Generate`: starting at `pool`, each
iteration computes `base = pool * K`, splits it as
`quo = base / poolSize`, `rem = base % poolSize` (Go's `big.Int.QuoRem`
truncates toward zero, which on these non-negative values is floor
division), carries `rem` as the next pool, and writes `chars[quo]`.
`List.getD` with default 0 stands in for Go's panicking index; the
bounds theorem below shows the default is never taken when
`pool < poolSize`. -/
def mapLoop (K poolSize : Nat) (chars : GoStr) : Nat → Nat → GoStr
  | 0, _ => []
  | n + 1, pool =>
    let base := pool * K
    chars.getD (base / poolSize) 0 :: mapLoop K poolSize chars n (base % poolSize)

/-- The digit sequence extracted by `mapLoop`, without the lookup into
`chars`. -/
def digitLoop (K poolSize : Nat) : Nat → Nat → List Nat
  | 0, _ => []
  | n + 1, pool =>
    let base := pool * K
    base / poolSize :: digitLoop K poolSize n (base % poolSize)

/-- The mapping stage of `Profile.Generate`: `pool` is the big-endian
value of `hash`, `poolSize = 2^(8·len(hash))`, and `count` runes of
`chars` are extracted. -/
def mapBytes (hash : List Nat) (chars : GoStr) (count : Nat) : GoStr :=
  mapLoop chars.length (2 ^ (8 * hash.length)) chars count (beBytes hash)

/-- `Profile.Generate` (src/profile.go): derive the password for profile
`p` from the master secret, with the external scrypt function passed in
as `sk`. -/
def Generate (sk : ScryptKey) (master : GoStr) (p : Profile) : GoStr :=
  let passwordPart := master ++ 9 :: p.URL ++ 9 :: p.Username
  let saltPart := itoa p.Generation
  let hash := sk passwordPart saltPart p.Length.toNat
  let chars := GetCharacterSet p
  mapBytes hash chars p.Length.toNat

/-- Go `strings.Contains`: does `hay` contain `needle` as a contiguous
substring? -/
def goContainsStr (hay needle : GoStr) : Bool :=
  (List.range (hay.length + 1)).any (fun i => needle.isPrefixOf (hay.drop i))

/-- `Profile.Match` (src/profile.go): a live profile whose lower-cased
name contains the lower-cased search string. -/
def Match (p : Profile) (search : GoStr) : Bool :=
  !IsDeleted p && goContainsStr (mapToLower p.Name) (mapToLower search)

/-- `VerifyProfile` (src/main.go): the fixed profile whose derived output
is stored as the client's master-secret verification code.
Its username is the string verify; url, include and exclude are empty. -/
def VerifyProfile : Profile :=
  { Username := [118, 101, 114, 105, 102, 121]
    URL := []
    Generation := 0
    Length := 4
    Lower := true
    Upper := false
    Digits := false
    Punctuation := false
    Spaces := false
    Include := []
    Exclude := [] }

/-- The client record (src/main.go). -/
structure Client where
  Name : GoStr := []
  Verify : GoStr := []
  Profiles : List Profile := []
  ModifiedAt : Option Nat := none
  SyncedAt : Option Nat := none
  PreviousSyncAt : Option Nat := none
deriving DecidableEq, Repr

/-- `getClient` (src/main.go), after the stored document has been read
and decoded into `stored`: re-derive the verification code from the
supplied master secret; an empty stored code is backfilled (marking the
client modified), a differing stored code is a fatal mismatch. -/
def getClient (sk : ScryptKey) (now : Nat) (stored : Client)
    (master : GoStr) : Except AppErr Client :=
  let verify := Generate sk master VerifyProfile
  if stored.Verify = [] then
    .ok { stored with Verify := verify, ModifiedAt := some now }
  else if stored.Verify ≠ verify then .error .verifyMismatch
  else .ok stored

/-- The password-listing command (src/main.go `listProfiles`), from the
point where the stored document is in hand: load and check the client
first, then generate one password per matching profile.  A `getClient`
failure aborts before any password is generated. -/
def listProfilesRun (sk : ScryptKey) (now : Nat) (stored : Client)
    (master : GoStr) (search : GoStr) : Except AppErr (List GoStr) :=
  match getClient sk now stored master with
  | .error e => .error e
  | .ok c =>
    .ok (((c.Profiles.filter (fun q => Match q search)).map
      (fun q => Generate sk master q)))

/-- A uuid-keyed map of profiles, as Go's `map[string]*Profile`. -/
abbrev ProfileMap := GoStr → Option Profile

/-- A profile with its `ModifiedAt` reset to nil. -/
def clearModified (p : Profile) : Profile := { p with ModifiedAt := none }

/-- The seeding loop of `syncProfiles` (src/main.go), one local profile
at a time, left to right: insert every pre-sync local profile with
positive length into the working map, with its `ModifiedAt` reset (the
Go code resets the field through the shared pointer right after the
insertion). -/
def seedMapAux (m : ProfileMap) : List Profile → ProfileMap
  | [] => m
  | elt :: rest =>
    seedMapAux
      (if elt.Length > 0 then
        fun u => if u = elt.UUID then some (clearModified elt) else m u
      else m)
      rest

/-- The working map seeded from the pre-sync local profiles. -/
def seedMap (locals : List Profile) : ProfileMap :=
  seedMapAux (fun _ => none) locals

/-- The server-response loop of `syncProfiles`, one response profile at
a time, in response order: a delete notice (`Length <= 0`) removes its
uuid from the map; any other profile is inserted or replaced with
`ModifiedAt` reset. -/
def applyUpdates (m : ProfileMap) : List Profile → ProfileMap
  | [] => m
  | elt :: rest =>
    applyUpdates
      (if elt.Length ≤ 0 then
        fun u => if u = elt.UUID then none else m u
      else
        fun u => if u = elt.UUID then some (clearModified elt) else m u)
      rest

/-- The merge step of `syncProfiles`: seed from the pre-sync local
profiles, then fold the server's response over the map in response
order.  The reconciled map's values become the new collection (the Go
code then copies them out in unspecified map-iteration order, which the
spec declares insignificant). -/
def syncMerge (locals updates : List Profile) : ProfileMap :=
  applyUpdates (seedMap locals) updates

/-- Modelled from the spec words of section 4.5, step Reconcile (seed),
for comparison with `seedMap`: tombstoned local profiles (length < 1)
are dropped from the seed and `modifiedAt` is cleared on every surviving
seeded profile. -/
def specSeedAux (m : ProfileMap) : List Profile → ProfileMap
  | [] => m
  | elt :: rest =>
    specSeedAux
      (if elt.Length < 1 then m
      else fun u => if u = elt.UUID then some (clearModified elt) else m u)
      rest

/-- Modelled from the spec words of section 4.5, step Reconcile (server
fold), for comparison with `applyUpdates`: each server profile in
response order either removes its uuid (when it is a tombstone,
length < 1) or is inserted/replaced with `modifiedAt` cleared. -/
def specApplyAux (m : ProfileMap) : List Profile → ProfileMap
  | [] => m
  | elt :: rest =>
    specApplyAux
      (if elt.Length < 1 then
        fun u => if u = elt.UUID then none else m u
      else
        fun u => if u = elt.UUID then some (clearModified elt) else m u)
      rest

/-- Modelled from the spec words of section 4.5, step Reconcile, for
comparison with `syncMerge`. -/
def mergeSpec (locals updates : List Profile) : ProfileMap :=
  specApplyAux (specSeedAux (fun _ => none) locals) updates

/-- A concrete valid profile (lower-case letters plus an include of @,
an exclude of b) whose include contains a character already implied by
the enabled Lower toggle. -/
def p8ex : Profile :=
  { Scheme := schemeScrypt, UUID := [117], Name := [110], Length := 16,
    Lower := true, Include := [64, 97], Exclude := [98] }

/-- A concrete valid but un-normalized profile: name and username carry
whitespace and upper case, the exclude list holds an out-of-range rune,
and the modification timestamp is not on a millisecond boundary. -/
def p7ex : Profile :=
  { Scheme := schemeScrypt, UUID := [117], Name := [32, 110, 65, 32],
    Username := [65, 98, 32], Generation := 3, Length := 16,
    Lower := true, Upper := true, Include := [97, 64],
    Exclude := [98, 200], ModifiedAt := some 1234567 }

/-- The normal form `Validate` produces for `p7ex`. -/
def q7ex : Profile :=
  { Scheme := schemeScrypt, UUID := [117], Name := [110, 65],
    Username := [97, 98], Generation := 3, Length := 16,
    Lower := true, Upper := true, Include := [64, 97],
    Exclude := [98], ModifiedAt := some 1000000 }

/-- Modelled from the spec words of section 4.1, for comparison with
`CanUse`: the class toggle decides base membership (whitespace,
lowercase, uppercase, digit, else punctuation), a rune in `include` is
forced on, a rune in `exclude` is forced off (exclude wins), and runes
outside [32,126] are never members. -/
def canUseSpec (p : Profile) (r : Nat) : Bool :=
  if r < 32 || 126 < r then false
  else
    let base :=
      if isSpaceGo r then p.Spaces
      else if isLowerGo r then p.Lower
      else if isUpperGo r then p.Upper
      else if isDigitGo r then p.Digits
      else p.Punctuation
    if containsRune p.Exclude r then false
    else if containsRune p.Include r then true
    else base

/-- Modelled from the spec words of section 4.3, for comparison with
`mapLoop`: for each output position compute base = pool * K,
digit = base div poolSize, pool = base mod poolSize, and append
alphabet[digit]. -/
def mapSpecLoop (poolSize K : Nat) (alphabet : GoStr) : Nat → Nat → GoStr
  | 0, _ => []
  | n + 1, pool =>
    let base := pool * K
    let digit := base / poolSize
    alphabet.getD digit 0 :: mapSpecLoop poolSize K alphabet n (base % poolSize)

/-- Modelled from the spec words of section 4.3, for comparison with
`mapBytes`: interpret the bytes as a big-endian pool with
poolSize = 2^(8L) fixed for the whole run, and extract one digit in
base K per output position. -/
def mapSpec (bs : List Nat) (alphabet : GoStr) (count : Nat) : GoStr :=
  mapSpecLoop (2 ^ (8 * bs.length)) alphabet.length alphabet count (beBytes bs)

/-! ## Supporting lemmas -/

theorem isSpaceGo_iff {r : Nat} :
    isSpaceGo r = true ↔
      r = 9 ∨ r = 10 ∨ r = 11 ∨ r = 12 ∨ r = 13 ∨ r = 32 ∨ r = 133 ∨
      r = 160 ∨ r = 5760 ∨ (8192 ≤ r ∧ r ≤ 8202) ∨ r = 8232 ∨ r = 8233 ∨
      r = 8239 ∨ r = 8287 ∨ r = 12288 := by
  simp only [isSpaceGo, Bool.or_eq_true, beq_iff_eq, Bool.and_eq_true,
    decide_eq_true_eq]
  tauto

theorem toLowerGo_upper {r : Nat} (h : 65 ≤ r ∧ r ≤ 90) :
    toLowerGo r = r + 32 := by
  have hb : (65 ≤ r && r ≤ 90) = true := by
    simp only [Bool.and_eq_true, decide_eq_true_eq]
    exact h
  unfold toLowerGo
  rw [if_pos hb]

theorem toLowerGo_eq_self {r : Nat} (h1 : ¬(65 ≤ r ∧ r ≤ 90)) (h2 : r ≠ 304)
    (h3 : r ≠ 8490) : toLowerGo r = r := by
  have hb : ¬((65 ≤ r && r ≤ 90) = true) := by
    simp only [Bool.and_eq_true, decide_eq_true_eq]
    exact h1
  unfold toLowerGo
  rw [if_neg hb, if_neg h2, if_neg h3]

theorem isSpaceGo_toLowerGo (r : Nat) : isSpaceGo (toLowerGo r) = isSpaceGo r := by
  by_cases h1 : 65 ≤ r ∧ r ≤ 90
  · rw [toLowerGo_upper h1]
    have ha : isSpaceGo (r + 32) = false := by
      rw [Bool.eq_false_iff, Ne, isSpaceGo_iff]; omega
    have hb : isSpaceGo r = false := by
      rw [Bool.eq_false_iff, Ne, isSpaceGo_iff]; omega
    rw [ha, hb]
  · by_cases h2 : r = 304
    · subst h2; rfl
    · by_cases h3 : r = 8490
      · subst h3; rfl
      · rw [toLowerGo_eq_self h1 h2 h3]

theorem toLowerGo_idem (r : Nat) : toLowerGo (toLowerGo r) = toLowerGo r := by
  by_cases h1 : 65 ≤ r ∧ r ≤ 90
  · have ha : ¬(65 ≤ r + 32 ∧ r + 32 ≤ 90) := by omega
    have hb : r + 32 ≠ 304 := by omega
    have hc : r + 32 ≠ 8490 := by omega
    rw [toLowerGo_upper h1, toLowerGo_eq_self ha hb hc]
  · by_cases h2 : r = 304
    · subst h2; rfl
    · by_cases h3 : r = 8490
      · subst h3; rfl
      · rw [toLowerGo_eq_self h1 h2 h3, toLowerGo_eq_self h1 h2 h3]

theorem mapToLower_idem (s : GoStr) : mapToLower (mapToLower s) = mapToLower s := by
  unfold mapToLower
  rw [List.map_map]
  congr 1
  funext r
  exact toLowerGo_idem r

theorem dropWhile_head?_false {p : Nat → Bool} {l : List Nat} {a : Nat}
    (h : (l.dropWhile p).head? = some a) : p a = false := by
  induction l with
  | nil => simp [List.dropWhile] at h
  | cons b t ih =>
    rw [List.dropWhile_cons] at h
    split at h
    · exact ih h
    · rename_i hb
      simp only [List.head?_cons, Option.some.injEq] at h
      subst h
      exact Bool.eq_false_iff.mpr hb

theorem dropWhile_eq_self_of_head {p : Nat → Bool} {l : List Nat}
    (h : ∀ a, l.head? = some a → p a = false) : l.dropWhile p = l := by
  cases l with
  | nil => rfl
  | cons b t => simp [List.dropWhile_cons, h b rfl]

theorem getLast?_dropWhile {p : Nat → Bool} {l : List Nat}
    (h : l.dropWhile p ≠ []) : (l.dropWhile p).getLast? = l.getLast? := by
  induction l with
  | nil => simp [List.dropWhile] at h
  | cons b t ih =>
    rw [List.dropWhile_cons] at h ⊢
    split
    · rename_i hb
      rw [if_pos hb] at h
      have ht : t ≠ [] := by
        rintro rfl; simp [List.dropWhile] at h
      rw [ih h]
      cases t with
      | nil => exact absurd rfl ht
      | cons c u => rw [List.getLast?_cons_cons]
    · rfl

theorem mapToLower_dropWhile (l : GoStr) :
    (mapToLower l).dropWhile isSpaceGo = mapToLower (l.dropWhile isSpaceGo) := by
  induction l with
  | nil => rfl
  | cons a t ih =>
    simp only [mapToLower, List.map_cons, List.dropWhile_cons,
      isSpaceGo_toLowerGo a]
    split
    · exact ih
    · rfl

theorem trimSpace_nohead {s : GoStr} {a : Nat}
    (h : (trimSpace s).head? = some a) : isSpaceGo a = false := by
  unfold trimSpace at h
  rw [List.head?_reverse] at h
  have hne : (s.dropWhile isSpaceGo).reverse.dropWhile isSpaceGo ≠ [] := by
    rintro he; rw [he] at h; simp at h
  rw [getLast?_dropWhile hne, List.getLast?_reverse] at h
  exact dropWhile_head?_false h

theorem trimSpace_idem (s : GoStr) : trimSpace (trimSpace s) = trimSpace s := by
  have h1 : (trimSpace s).dropWhile isSpaceGo = trimSpace s :=
    dropWhile_eq_self_of_head (fun a ha => trimSpace_nohead ha)
  have h2 : (trimSpace s).reverse.dropWhile isSpaceGo = (trimSpace s).reverse := by
    have hr : (trimSpace s).reverse =
        (s.dropWhile isSpaceGo).reverse.dropWhile isSpaceGo := by
      unfold trimSpace; rw [List.reverse_reverse]
    rw [hr, List.dropWhile_idempotent]
  show (((trimSpace s).dropWhile isSpaceGo).reverse.dropWhile isSpaceGo).reverse
      = trimSpace s
  rw [h1, h2, List.reverse_reverse]

theorem mapToLower_reverse (l : GoStr) :
    mapToLower l.reverse = (mapToLower l).reverse :=
  List.map_reverse toLowerGo l

theorem trimSpace_mapToLower (s : GoStr) :
    trimSpace (mapToLower s) = mapToLower (trimSpace s) := by
  unfold trimSpace
  rw [mapToLower_dropWhile, ← mapToLower_reverse, mapToLower_dropWhile,
    ← mapToLower_reverse]

theorem normLower_fix (s : GoStr) :
    mapToLower (trimSpace (mapToLower (trimSpace s))) = mapToLower (trimSpace s) := by
  rw [trimSpace_mapToLower, trimSpace_idem, mapToLower_idem]

theorem roundMs_idem (t : Nat) : roundMs (roundMs t) = roundMs t := by
  unfold roundMs
  omega

theorem mem_charRange {r : Nat} : r ∈ charRange ↔ 32 ≤ r ∧ r ≤ 126 := by
  simp only [charRange, List.mem_map, List.mem_range]
  constructor
  · rintro ⟨i, hi, rfl⟩; omega
  · rintro ⟨h1, h2⟩; exact ⟨r - 32, by omega, by omega⟩

theorem charRange_pairwise : List.Pairwise (· < ·) charRange := by
  refine List.Pairwise.map _ ?_ (List.pairwise_lt_range 95)
  omega

theorem containsRune_eq {s : GoStr} {r : Nat} :
    containsRune s r = decide (r ∈ s) :=
  List.elem_eq_mem r s

theorem containsRune_filter {f : Nat → Bool} {l : GoStr} {r : Nat}
    (h : r ∈ l) : containsRune (l.filter f) r = f r := by
  rw [containsRune_eq]
  by_cases hf : f r = true
  · simp [List.mem_filter, h, hf]
  · simp only [Bool.not_eq_true] at hf
    simp [List.mem_filter, hf]

theorem canUse_eq_spec (p : Profile) (r : Nat) : CanUse p r = canUseSpec p r := rfl

theorem mapLoop_eq_mapSpecLoop (K ps : Nat) (chars : GoStr) :
    ∀ (n pool : Nat), mapLoop K ps chars n pool = mapSpecLoop ps K chars n pool := by
  intro n
  induction n with
  | zero => intro pool; rfl
  | succ m ih => intro pool; simp only [mapLoop, mapSpecLoop, ih]

theorem digitLoop_all_lt {K ps : Nat} (hK : 0 < K) (hps : 0 < ps) :
    ∀ (n pool : Nat), pool < ps →
      (digitLoop K ps n pool).all (fun d => decide (d < K)) = true := by
  intro n
  induction n with
  | zero => intro pool _; rfl
  | succ m ih =>
    intro pool hp
    unfold digitLoop
    rw [List.all_cons, Bool.and_eq_true]
    refine ⟨?_, ih _ (Nat.mod_lt _ hps)⟩
    rw [decide_eq_true_eq, Nat.div_lt_iff_lt_mul hps, Nat.mul_comm K ps]
    exact Nat.mul_lt_mul_of_lt_of_le hp (Nat.le_refl K) hK

theorem mapLoop_mem {ps : Nat} {chars : GoStr} (hK : 0 < chars.length)
    (hps : 0 < ps) :
    ∀ (n pool : Nat), pool < ps →
      ∀ c ∈ mapLoop chars.length ps chars n pool, c ∈ chars := by
  intro n
  induction n with
  | zero => intro pool _ c hc; simp [mapLoop] at hc
  | succ m ih =>
    intro pool hp c hc
    unfold mapLoop at hc
    rcases List.mem_cons.mp hc with h | h
    · have hd : pool * chars.length / ps < chars.length := by
        rw [Nat.div_lt_iff_lt_mul hps, Nat.mul_comm chars.length ps]
        exact Nat.mul_lt_mul_of_lt_of_le hp (Nat.le_refl _) hK
      rw [h, List.getD_eq_getElem chars 0 hd]
      exact List.getElem_mem hd
    · exact ih _ (Nat.mod_lt _ hps) c h

theorem seedMapAux_eq_specSeed (locals : List Profile) :
    ∀ m : ProfileMap, seedMapAux m locals = specSeedAux m locals := by
  induction locals with
  | nil => intro m; rfl
  | cons a t ih =>
    intro m
    unfold seedMapAux specSeedAux
    have hif : (if a.Length > 0 then
          (fun u => if u = a.UUID then some (clearModified a) else m u)
        else m)
        = (if a.Length < 1 then m
        else fun u => if u = a.UUID then some (clearModified a) else m u) := by
      by_cases h : a.Length < 1
      · rw [if_pos h, if_neg (by omega)]
      · rw [if_neg h, if_pos (by omega)]
    rw [hif, ih]

theorem applyUpdates_eq_specApply (updates : List Profile) :
    ∀ m : ProfileMap, applyUpdates m updates = specApplyAux m updates := by
  induction updates with
  | nil => intro m; rfl
  | cons a t ih =>
    intro m
    unfold applyUpdates specApplyAux
    have hif : (if a.Length ≤ 0 then
          (fun u => if u = a.UUID then none else m u)
        else fun u => if u = a.UUID then some (clearModified a) else m u)
        = (if a.Length < 1 then
          (fun u => if u = a.UUID then none else m u)
        else fun u => if u = a.UUID then some (clearModified a) else m u) := by
      by_cases h : a.Length ≤ 0
      · rw [if_pos h, if_pos (by omega)]
      · rw [if_neg h, if_neg (by omega)]
    rw [hif, ih]

theorem syncMerge_eq_mergeSpec (locals updates : List Profile) :
    syncMerge locals updates = mergeSpec locals updates := by
  unfold syncMerge mergeSpec seedMap
  rw [seedMapAux_eq_specSeed, applyUpdates_eq_specApply]

theorem applyUpdates_skip {updates : List Profile} {u : GoStr}
    (h : ∀ q ∈ updates, q.UUID ≠ u) :
    ∀ m : ProfileMap, applyUpdates m updates u = m u := by
  induction updates with
  | nil => intro m; rfl
  | cons a t ih =>
    intro m
    unfold applyUpdates
    rw [ih (fun q hq => h q (List.mem_cons_of_mem a hq))]
    have ha : a.UUID ≠ u := h a (List.mem_cons_self a t)
    by_cases hc : a.Length ≤ 0
    · rw [if_pos hc, if_neg (fun he => ha he.symm)]
    · rw [if_neg hc, if_neg (fun he => ha he.symm)]

theorem seedMapAux_tomb {locals : List Profile} {u : GoStr}
    (h : ∀ q ∈ locals, q.UUID = u → q.Length < 1) :
    ∀ m : ProfileMap, m u = none → seedMapAux m locals u = none := by
  induction locals with
  | nil => intro m hm; exact hm
  | cons a t ih =>
    intro m hm
    unfold seedMapAux
    refine ih (fun q hq => h q (List.mem_cons_of_mem a hq)) _ ?_
    by_cases hc : a.Length > 0
    · rw [if_pos hc]
      have ha : u ≠ a.UUID := by
        intro he
        exact absurd (h a (List.mem_cons_self a t) he.symm) (by omega)
      rw [if_neg ha]
      exact hm
    · rw [if_neg hc]; exact hm

theorem normalizeOk_Scheme (p : Profile) : (normalizeOk p).Scheme = p.Scheme := rfl

theorem normalizeOk_UUID (p : Profile) : (normalizeOk p).UUID = p.UUID := rfl

theorem normalizeOk_Name (p : Profile) :
    (normalizeOk p).Name = trimSpace p.Name := rfl

theorem normalizeOk_Username (p : Profile) :
    (normalizeOk p).Username = mapToLower (trimSpace p.Username) := rfl

theorem normalizeOk_URL (p : Profile) :
    (normalizeOk p).URL = mapToLower (trimSpace p.URL) := rfl

theorem normalizeOk_Generation (p : Profile) :
    (normalizeOk p).Generation = p.Generation := rfl

theorem normalizeOk_Length (p : Profile) : (normalizeOk p).Length = p.Length := rfl

theorem normalizeOk_Lower (p : Profile) : (normalizeOk p).Lower = p.Lower := rfl

theorem normalizeOk_Upper (p : Profile) : (normalizeOk p).Upper = p.Upper := rfl

theorem normalizeOk_Digits (p : Profile) : (normalizeOk p).Digits = p.Digits := rfl

theorem normalizeOk_Punctuation (p : Profile) :
    (normalizeOk p).Punctuation = p.Punctuation := rfl

theorem normalizeOk_Spaces (p : Profile) : (normalizeOk p).Spaces = p.Spaces := rfl

theorem normalizeOk_Include (p : Profile) :
    (normalizeOk p).Include = charRange.filter
      (fun r => !containsRune p.Exclude r && containsRune p.Include r) := rfl

theorem normalizeOk_Exclude (p : Profile) :
    (normalizeOk p).Exclude =
      charRange.filter (fun r => containsRune p.Exclude r) := rfl

theorem normalizeOk_ModifiedAt (p : Profile) :
    (normalizeOk p).ModifiedAt = p.ModifiedAt.map roundMs := rfl

theorem isDeleted_normalizeOk (p : Profile) :
    IsDeleted (normalizeOk p) = IsDeleted p := rfl

theorem option_roundMs_fix (o : Option Nat) :
    (o.map roundMs).map roundMs = o.map roundMs := by
  cases o with
  | none => rfl
  | some t =>
    show some (roundMs (roundMs t)) = some (roundMs t)
    rw [roundMs_idem]

theorem canUse_normalizeOk (p : Profile) {r : Nat} (hr : r ∈ charRange) :
    CanUse (normalizeOk p) r = CanUse p r := by
  unfold CanUse
  simp only [normalizeOk_Include, normalizeOk_Exclude, normalizeOk_Lower,
    normalizeOk_Upper, normalizeOk_Digits, normalizeOk_Punctuation,
    normalizeOk_Spaces, containsRune_filter hr]
  cases containsRune p.Exclude r <;> cases containsRune p.Include r <;> rfl

theorem filter_canUse_normalizeOk (p : Profile) :
    charRange.filter (fun r => CanUse (normalizeOk p) r) =
      charRange.filter (fun r => CanUse p r) :=
  List.filter_congr (fun _ hr => canUse_normalizeOk p hr)

theorem validate_ok_elim {p q : Profile} (h : Validate p = .ok q)
    (hdel : ¬ (IsDeleted p = true)) :
    q = normalizeOk p ∧ ¬ (p.Scheme ≠ schemeScrypt) ∧
    ¬ (byteLen (trimSpace p.Name) < minNameLength ∨
        byteLen (trimSpace p.Name) > maxNameLength) ∧
    ¬ ((trimSpace p.Name).any illegalRune = true) ∧
    ¬ (byteLen (mapToLower (trimSpace p.Username)) > maxUsernameLength) ∧
    ¬ ((mapToLower (trimSpace p.Username)).any illegalRune = true) ∧
    ¬ (byteLen (mapToLower (trimSpace p.URL)) > maxURLLength) ∧
    ¬ ((mapToLower (trimSpace p.URL)).any illegalRune = true) ∧
    ¬ (p.Generation < minGeneration ∨ p.Generation > maxGeneration) ∧
    ¬ (p.Length < minLength ∨ p.Length > maxLength) ∧
    ¬ ((charRange.filter (fun r => CanUse p r)).length < 2) := by
  unfold Validate at h
  rw [if_neg hdel] at h
  by_cases h1 : p.Scheme ≠ schemeScrypt
  · rw [if_pos h1] at h; exact Except.noConfusion h
  rw [if_neg h1] at h
  by_cases h2 : byteLen (trimSpace p.Name) < minNameLength ∨
      byteLen (trimSpace p.Name) > maxNameLength
  · rw [if_pos h2] at h; exact Except.noConfusion h
  rw [if_neg h2] at h
  by_cases h3 : (trimSpace p.Name).any illegalRune = true
  · rw [if_pos h3] at h; exact Except.noConfusion h
  rw [if_neg h3] at h
  by_cases h4 : byteLen (mapToLower (trimSpace p.Username)) > maxUsernameLength
  · rw [if_pos h4] at h; exact Except.noConfusion h
  rw [if_neg h4] at h
  by_cases h5 : (mapToLower (trimSpace p.Username)).any illegalRune = true
  · rw [if_pos h5] at h; exact Except.noConfusion h
  rw [if_neg h5] at h
  by_cases h6 : byteLen (mapToLower (trimSpace p.URL)) > maxURLLength
  · rw [if_pos h6] at h; exact Except.noConfusion h
  rw [if_neg h6] at h
  by_cases h7 : (mapToLower (trimSpace p.URL)).any illegalRune = true
  · rw [if_pos h7] at h; exact Except.noConfusion h
  rw [if_neg h7] at h
  by_cases h8 : p.Generation < minGeneration ∨ p.Generation > maxGeneration
  · rw [if_pos h8] at h; exact Except.noConfusion h
  rw [if_neg h8] at h
  by_cases h9 : p.Length < minLength ∨ p.Length > maxLength
  · rw [if_pos h9] at h; exact Except.noConfusion h
  rw [if_neg h9] at h
  by_cases h10 : (charRange.filter (fun r => CanUse p r)).length < 2
  · rw [if_pos h10] at h; exact Except.noConfusion h
  rw [if_neg h10] at h
  exact ⟨(Except.ok.inj h).symm, h1, h2, h3, h4, h5, h6, h7, h8, h9, h10⟩

theorem normalizeOk_idem (p : Profile) :
    normalizeOk (normalizeOk p) = normalizeOk p := by
  have hname : trimSpace (normalizeOk p).Name = (normalizeOk p).Name := by
    rw [normalizeOk_Name, trimSpace_idem]
  have huser : mapToLower (trimSpace (normalizeOk p).Username) =
      (normalizeOk p).Username := by
    rw [normalizeOk_Username, normLower_fix]
  have hurl : mapToLower (trimSpace (normalizeOk p).URL) =
      (normalizeOk p).URL := by
    rw [normalizeOk_URL, normLower_fix]
  have hinc : charRange.filter (fun r =>
        !containsRune (normalizeOk p).Exclude r &&
          containsRune (normalizeOk p).Include r) = (normalizeOk p).Include := by
    rw [normalizeOk_Include, normalizeOk_Exclude]
    refine List.filter_congr (fun r hr => ?_)
    rw [containsRune_filter hr, containsRune_filter hr]
    cases containsRune p.Exclude r <;> cases containsRune p.Include r <;> rfl
  have hexc : charRange.filter
        (fun r => containsRune (normalizeOk p).Exclude r) =
      (normalizeOk p).Exclude := by
    rw [normalizeOk_Exclude]
    exact List.filter_congr (fun r hr => containsRune_filter hr)
  have hmod : (normalizeOk p).ModifiedAt.map roundMs =
      (normalizeOk p).ModifiedAt := by
    rw [normalizeOk_ModifiedAt, option_roundMs_fix]
  show { normalizeOk p with
      Name := trimSpace (normalizeOk p).Name,
      Username := mapToLower (trimSpace (normalizeOk p).Username),
      URL := mapToLower (trimSpace (normalizeOk p).URL),
      Include := charRange.filter (fun r =>
        !containsRune (normalizeOk p).Exclude r &&
          containsRune (normalizeOk p).Include r),
      Exclude := charRange.filter
        (fun r => containsRune (normalizeOk p).Exclude r),
      ModifiedAt := (normalizeOk p).ModifiedAt.map roundMs } = normalizeOk p
  rw [hname, huser, hurl, hinc, hexc, hmod]

/-! ## Claim theorems -/

/-- C1: the mapping stage of `Profile.Generate` performs exact big-radix
conversion: with pool the big-endian value of the KDF bytes and
poolSize = 2^(8L) fixed for the run, each output position computes
base = pool·K, digit = base div poolSize, pool = base mod poolSize, and
appends alphabet[digit]; the concrete vectors bytes=[0x80]/"AB" → "B",
bytes=[0x00]/"ABCD" → "A", and bytes=[0xFF]/"ABCD" → first char "D"
hold. -/
theorem c1_digit_mapper_exact :
    (∀ (bs : List Nat) (alphabet : GoStr) (count : Nat),
        1 ≤ bs.length → 2 ≤ alphabet.length →
        mapBytes bs alphabet count = mapSpec bs alphabet count) ∧
      mapBytes [128] [65, 66] 1 = [66] ∧
      mapBytes [0] [65, 66, 67, 68] 1 = [65] ∧
      (mapBytes [255] [65, 66, 67, 68] 1).head? = some 68 := by
  refine ⟨fun bs alphabet count _ _ => ?_, by decide, by decide, by decide⟩
  unfold mapBytes mapSpec
  exact mapLoop_eq_mapSpecLoop _ _ _ count (beBytes bs)

/-- C1 witness: the exact-conversion equation of `c1_digit_mapper_exact`
instantiated at bytes=[0x80], alphabet "AB", one output position. -/
theorem c1_digit_mapper_exact_witness :
    mapBytes [128] [65, 66] 1 = mapSpec [128] [65, 66] 1 :=
  c1_digit_mapper_exact.1 [128] [65, 66] 1 (by decide) (by decide)

/-- C3: `GetCharacterSet` contains exactly the characters in [32,126]
admitted by the spec's membership rule (class toggle, include forces on,
exclude forces off, exclude wins, nothing outside [32,126]), in
ascending code-point order. -/
theorem c3_charset_exact (p : Profile) :
    (∀ r : Nat, r ∈ GetCharacterSet p ↔
        32 ≤ r ∧ r ≤ 126 ∧ canUseSpec p r = true) ∧
      List.Pairwise (· < ·) (GetCharacterSet p) := by
  constructor
  · intro r
    unfold GetCharacterSet
    rw [List.mem_filter]
    constructor
    · rintro ⟨hr, hc⟩
      obtain ⟨h1, h2⟩ := mem_charRange.mp hr
      exact ⟨h1, h2, (canUse_eq_spec p r) ▸ hc⟩
    · rintro ⟨h1, h2, hc⟩
      exact ⟨mem_charRange.mpr ⟨h1, h2⟩, (canUse_eq_spec p r) ▸ hc⟩
  · exact charRange_pairwise.filter _

/-- C4: the merge of `syncProfiles` equals the spec's reconcile
algorithm (seed from pre-sync locals minus tombstones with modifiedAt
cleared, then fold the server response, tombstones deleting and all
others inserted with modifiedAt cleared); in particular a uuid whose
local occurrences are all tombstones and which the server response never
mentions is absent afterwards. -/
theorem c4_sync_merge :
    (∀ locals updates, syncMerge locals updates = mergeSpec locals updates) ∧
    ∀ (locals updates : List Profile) (u : GoStr),
      (∀ q ∈ locals, q.UUID = u → q.Length < 1) →
      (∀ q ∈ updates, q.UUID ≠ u) →
      syncMerge locals updates u = none := by
  refine ⟨syncMerge_eq_mergeSpec, fun locals updates u h1 h2 => ?_⟩
  unfold syncMerge
  rw [applyUpdates_skip h2]
  exact seedMapAux_tomb h1 _ rfl

/-- C4 witness: a lone local tombstone (with modifiedAt set) whose uuid
the empty server response never mentions is absent after the merge. -/
theorem c4_sync_merge_witness :
    syncMerge [{ UUID := [117, 50], Length := 0, ModifiedAt := some 3 }]
      [{ UUID := [117, 51], Length := 5 }] [117, 50] = none :=
  c4_sync_merge.2 _ _ _ (by decide) (by decide)

/-- C5 counterexample: on a tombstone carrying a `ModifiedAt` timestamp,
`Validate` succeeds but keeps `ModifiedAt` populated, so the claim that
every field besides uuid — modifiedAt included — is cleared to its zero
value is false at this input. -/
theorem c5_counterexample :
    Validate { UUID := [117], Name := [110], Username := [97],
               Length := 0, Lower := true, ModifiedAt := some 5 } =
      .ok { UUID := [117], ModifiedAt := some 5 } ∧
      (some 5 : Option Nat) ≠ none := ⟨by decide, by decide⟩

/-- C5 (amended): for every profile with length < 1, `Validate` succeeds
with no further checks and clears every field except `uuid` and
`modifiedAt` to its zero value. -/
theorem c5_tombstone_amended (p : Profile) (h : p.Length < 1) :
    Validate p = .ok { UUID := p.UUID, ModifiedAt := p.ModifiedAt } := by
  unfold Validate
  rw [if_pos (by simp only [IsDeleted, decide_eq_true_eq]; exact h)]

/-- C5 witness: the amended tombstone normalization at a concrete
profile with every field populated. -/
theorem c5_tombstone_amended_witness :
    Validate { Scheme := [120], UUID := [118], Name := [110, 110],
               Username := [85], URL := [104], Generation := 9,
               Length := -2, Upper := true, Digits := true,
               Include := [33], Exclude := [34], ModifiedAt := some 7 } =
      .ok { UUID := [118], ModifiedAt := some 7 } :=
  c5_tombstone_amended _ (by decide)

/-- C6 counterexample: the fixed verification profile does have a
username — the string verify — so the claim's "no username" is false. -/
theorem c6_counterexample :
    VerifyProfile.Username = [118, 101, 114, 105, 102, 121] ∧
      VerifyProfile.Username ≠ [] := ⟨rfl, by decide⟩

/-- C6 (amended): the master-secret verification profile is a fixed
constant with length 4, lower-case letters as its only enabled class
(its resolved alphabet is exactly a..z), generation zero, empty url, and
the fixed username verify; on any load of a document whose stored verify
is non-empty, a mismatch with the re-derived code makes `getClient`
fail, and the listing command then aborts before generating any profile
password. -/
theorem c6_verify_mismatch_amended :
    (VerifyProfile.Length = 4 ∧ VerifyProfile.Lower = true ∧
     VerifyProfile.Upper = false ∧ VerifyProfile.Digits = false ∧
     VerifyProfile.Punctuation = false ∧ VerifyProfile.Spaces = false ∧
     VerifyProfile.Include = [] ∧ VerifyProfile.Exclude = [] ∧
     VerifyProfile.Generation = 0 ∧ VerifyProfile.URL = [] ∧
     VerifyProfile.Username = [118, 101, 114, 105, 102, 121] ∧
     GetCharacterSet VerifyProfile = (List.range 26).map (· + 97)) ∧
    ∀ (sk : ScryptKey) (now : Nat) (stored : Client) (master search : GoStr),
      stored.Verify ≠ [] →
      stored.Verify ≠ Generate sk master VerifyProfile →
      getClient sk now stored master = .error .verifyMismatch ∧
        listProfilesRun sk now stored master search = .error .verifyMismatch := by
  refine ⟨by decide, fun sk now stored master search h1 h2 => ?_⟩
  have hg : getClient sk now stored master = .error .verifyMismatch := by
    unfold getClient
    rw [if_neg h1, if_pos h2]
  refine ⟨hg, ?_⟩
  unfold listProfilesRun
  rw [hg]

/-- C6 witness: a stored verify code that differs from the one derived
from the supplied master secret aborts both the client load and the
listing pipeline. -/
theorem c6_verify_mismatch_amended_witness :
    getClient (fun _ _ n => List.replicate n 0) 0 { Verify := [120] } [97] =
        .error .verifyMismatch ∧
      listProfilesRun (fun _ _ n => List.replicate n 0) 0 { Verify := [120] }
        [97] [] = .error .verifyMismatch :=
  c6_verify_mismatch_amended.2 _ 0 _ [97] [] (by decide) (by decide)

/-- C9: in the digit-mapping loop, for an alphabet of K ≥ 2 characters
and any pool below poolSize = 2^(8L), every extracted digit is below K,
and consequently every rune the loop emits is a member of the alphabet —
the loop body never reads the alphabet out of bounds. -/
theorem c9_digit_in_bounds (chars : GoStr) (L count pool : Nat)
    (hK : 2 ≤ chars.length) (hpool : pool < 2 ^ (8 * L)) :
    (digitLoop chars.length (2 ^ (8 * L)) count pool).all
        (fun d => decide (d < chars.length)) = true ∧
      ∀ c ∈ mapLoop chars.length (2 ^ (8 * L)) chars count pool, c ∈ chars := by
  have hps : 0 < 2 ^ (8 * L) := Nat.pos_pow_of_pos _ (by omega)
  exact ⟨digitLoop_all_lt (by omega) hps count pool hpool,
    mapLoop_mem (by omega) hps count pool hpool⟩

/-- C9 witness: the digit bound at a one-byte pool and the two-letter
alphabet "AB". -/
theorem c9_digit_in_bounds_witness :
    (digitLoop 2 (2 ^ (8 * 1)) 5 200).all (fun d => decide (d < 2)) = true :=
  (c9_digit_in_bounds [65, 66] 1 5 200 (by decide) (by decide)).1

/-- C10: loading an existing document whose stored verify is empty
accepts any master secret: `getClient` backfills `verify` with the
freshly derived code and marks the client modified instead of reporting
a mismatch. -/
theorem c10_empty_verify_backfill (sk : ScryptKey) (now : Nat)
    (stored : Client) (master : GoStr) (h : stored.Verify = []) :
    getClient sk now stored master =
      .ok { stored with Verify := Generate sk master VerifyProfile,
                        ModifiedAt := some now } := by
  unfold getClient
  rw [if_pos h]

/-- C10 witness: an empty stored verify is backfilled from the supplied
master secret (here: the all-zero KDF stand-in derives aaaa over the
lower-case alphabet). -/
theorem c10_empty_verify_backfill_witness :
    getClient (fun _ _ n => List.replicate n 0) 4 { Name := [99] } [98] =
      .ok { Name := [99], Verify := [97, 97, 97, 97], ModifiedAt := some 4 } := by
  have h := c10_empty_verify_backfill (fun _ _ n => List.replicate n 0) 4
    { Name := [99] } [98] rfl
  rw [h]
  decide

/-- C2: `Profile.Generate` is a pure, deterministic function of the
master secret, url, username, generation, length, and the
alphabet-determining fields (the five toggles, include, exclude): two
profiles agreeing on those fields derive byte-identical passwords, for
any deterministic KDF. -/
theorem c2_generate_deterministic (sk : ScryptKey) (master : GoStr)
    (p q : Profile)
    (hurl : p.URL = q.URL) (huser : p.Username = q.Username)
    (hgen : p.Generation = q.Generation) (hlen : p.Length = q.Length)
    (hlo : p.Lower = q.Lower) (hup : p.Upper = q.Upper)
    (hdig : p.Digits = q.Digits) (hpun : p.Punctuation = q.Punctuation)
    (hsp : p.Spaces = q.Spaces) (hinc : p.Include = q.Include)
    (hexc : p.Exclude = q.Exclude) :
    Generate sk master p = Generate sk master q := by
  unfold Generate GetCharacterSet CanUse
  simp only [hurl, huser, hgen, hlen, hlo, hup, hdig, hpun, hsp, hinc, hexc]

/-- C7: `Validate` is idempotent — whenever it succeeds, running it
again on the normalized result succeeds and changes no field. -/
theorem c7_validate_idempotent (p q : Profile) (h : Validate p = .ok q) :
    Validate q = .ok q := by
  by_cases hdel : IsDeleted p = true
  · unfold Validate at h
    rw [if_pos hdel] at h
    injection h with h
    subst h
    rfl
  · obtain ⟨hq, h1, h2, h3, h4, h5, h6, h7, h8, h9, h10⟩ :=
      validate_ok_elim h hdel
    subst hq
    unfold Validate
    simp only [isDeleted_normalizeOk, normalizeOk_Scheme, normalizeOk_Name,
      normalizeOk_Username, normalizeOk_URL, normalizeOk_Generation,
      normalizeOk_Length, trimSpace_idem, normLower_fix,
      filter_canUse_normalizeOk, normalizeOk_idem]
    rw [if_neg hdel, if_neg h1, if_neg h2, if_neg h3, if_neg h4, if_neg h5,
      if_neg h6, if_neg h7, if_neg h8, if_neg h9, if_neg h10]

/-- C7 witness: a concrete profile needing every normalization step
(trimming, lower-casing, include/exclude renormalization, timestamp
rounding) validates to `q7ex`, and validating `q7ex` again returns it
unchanged. -/
theorem c7_validate_idempotent_witness : Validate q7ex = .ok q7ex :=
  c7_validate_idempotent p7ex q7ex (by decide)

/-- C8 counterexample: profile `p8ex` enables the Lower toggle and
includes the character a (97), which that toggle already implies; after
successful validation the stored include still retains 97, so the claim
that toggle-implied include entries are dropped is false here. -/
theorem c8_counterexample :
    (Validate p8ex).toOption.map Profile.Include = some [64, 97] ∧
      p8ex.Lower = true ∧ isLowerGo 97 = true ∧ CanUse p8ex 97 = true :=
  ⟨by decide, by decide, by decide, by decide⟩

/-- C8 (amended): for every non-tombstone profile that passes
validation, the normalized exclude retains exactly its characters inside
[32,126], in ascending code-point order, and the normalized include
retains exactly its characters inside [32,126] that are not excluded,
also in ascending order, regardless of whether an enabled class toggle
already implies them. -/
theorem c8_include_retained (p q : Profile) (h : Validate p = .ok q)
    (hlen : 1 ≤ p.Length) :
    q.Exclude = charRange.filter (fun r => containsRune p.Exclude r) ∧
      q.Include = charRange.filter
        (fun r => !containsRune p.Exclude r && containsRune p.Include r) := by
  have hdel : ¬ (IsDeleted p = true) := by
    simp only [IsDeleted, decide_eq_true_eq]
    omega
  obtain ⟨hq, -⟩ := validate_ok_elim h hdel
  subst hq
  exact ⟨rfl, rfl⟩

/-- C8 witness: the amended normalization at `p8ex` (whose include and
exclude are already in normal form, toggle-implied member included). -/
theorem c8_include_retained_witness :
    p8ex.Exclude = charRange.filter (fun r => containsRune p8ex.Exclude r) ∧
      p8ex.Include = charRange.filter
        (fun r => !containsRune p8ex.Exclude r && containsRune p8ex.Include r) :=
  c8_include_retained p8ex p8ex (by decide) (by decide)

/-- C2 witness: two profiles that differ in name, uuid, scheme and
modification timestamp but agree on the derivation-relevant fields
produce the same password. -/
theorem c2_generate_deterministic_witness :
    Generate (fun _ _ n => List.replicate n 1) [109]
        { UUID := [97], Scheme := [120], Name := [65],
          URL := [115], Username := [117], Generation := 2, Length := 3,
          Lower := true, Digits := true, ModifiedAt := some 1 } =
      Generate (fun _ _ n => List.replicate n 1) [109]
        { UUID := [98], Name := [66],
          URL := [115], Username := [117], Generation := 2, Length := 3,
          Lower := true, Digits := true, ModifiedAt := none } :=
  c2_generate_deterministic _ _ _ _ rfl rfl rfl rfl rfl rfl rfl rfl rfl rfl rfl

end Letmein
